import Mathlib

/-!
# go-maxcdn: URL assembly, the signed request pipeline, the purge fan-out

A shallow embedding of `maxcdn.go`.

* A Go string is modelled as the list of its characters (`GoString`).
* `url`, `do_` (Go's `do`), `Get`, `Post`, `Put`, `Delete`, `PurgeZone` are pure
  functions.  What `do` hands to its collaborators (the OAuth signer, the HTTP
  transport) is recorded in the result, so that "before the transport is
  invoked" and "the form handed to the signer" are statements about a value.
* The Go standard library calls the code makes (`strings.TrimPrefix`,
  `fmt.Sprintf`, `http.NewRequest` and with it `url.Parse`) are modelled from
  their documented behaviour, on the inputs this program gives them.
* `PurgeZones` starts goroutines; it is modelled as a transition system whose
  moves are chosen by a schedule.
-/

namespace MaxCDN

/-- A Go string, as the list of its characters. -/
abbrev GoString := List Char

/-! ## Constants (maxcdn.go, lines 18-22) -/

def ApiPath : GoString := "https://rws.netdna.com".toList

def UserAgent : GoString := "Go MaxCDN API Client".toList

def ContentType : GoString := "application/x-www-form-urlencoded".toList

/-! ## `strings` and `fmt` -/

/-- Go `strings.HasPrefix(s, pre)`. -/
def hasPrefix (s pre : GoString) : Bool := pre.isPrefixOf s

/-- Go `strings.TrimPrefix(s, pre)`: `s` without the leading `pre`, once; `s`
itself when it does not start with `pre`. -/
def trimPrefix (s pre : GoString) : GoString :=
  if hasPrefix s pre then s.drop pre.length else s

/-- Go `strings.Cut(s, sep)` for a one-character separator: the text before the
first `sep`, the text after it, and whether `sep` occurs (when it does not, the
whole of `s` is the first component). -/
def cut (sep : Char) : GoString → GoString × GoString × Bool
  | [] => ([], [], false)
  | c :: t =>
    if c = sep then ([], t, true)
    else ((c :: (cut sep t).1), (cut sep t).2.1, (cut sep t).2.2)

/-- What the verb `%d` of `fmt.Sprintf` prints for an integer: its decimal
digits (`Nat.toDigits 10`), after a `-` when it is negative. -/
def decimal (z : Int) : GoString :=
  if z < 0 then '-' :: Nat.toDigits 10 z.natAbs else Nat.toDigits 10 z.natAbs

/-! ## `MaxCDN.url` (maxcdn.go, lines 118-121) -/

/-- The method `url` of the source:
`endpoint = strings.TrimPrefix(endpoint, "/")` and then
`fmt.Sprintf("%s/%s/%s", ApiPath, max.Alias, endpoint)`. -/
def url (Alias endpoint : GoString) : GoString :=
  let endpoint := trimPrefix endpoint ['/']
  ApiPath ++ ['/'] ++ Alias ++ ['/'] ++ endpoint

/-! ## `net/url`: parsing the request URL -/

/-- The fields of Go's `url.URL` that the program or the claims read. -/
structure URL where
  Scheme : GoString
  Host : GoString
  Path : GoString
  ForceQuery : Bool
  RawQuery : GoString
  Fragment : GoString
deriving DecidableEq, Repr

/-- A control byte, as `stringContainsCTLByte` of `net/url` tests it. -/
def isCTL (c : Char) : Bool := c.toNat < 32 || c.toNat = 127

/-- Go `ishex` of `net/url`. -/
def ishex (c : Char) : Bool :=
  c.isDigit || (97 ≤ c.toNat && c.toNat ≤ 102) || (65 ≤ c.toNat && c.toNat ≤ 70)

/-- Go `unhex` of `net/url`. -/
def unhex (c : Char) : Nat :=
  if c.isDigit then c.toNat - 48
  else if 97 ≤ c.toNat && c.toNat ≤ 102 then c.toNat - 97 + 10
  else if 65 ≤ c.toNat && c.toNat ≤ 70 then c.toNat - 65 + 10
  else 0

/-- Go `unescape(s, encodePath)` (the same for `encodeFragment`): every `%XX`
is replaced by the byte it names, a `%` not followed by two hex digits is an
escape error, every other character is kept (a `+` too). A byte is modelled as
the character with that code: for an escape below `%80` this is what Go yields;
for `%80` and above Go yields one byte of a longer UTF-8 sequence, which this
model does not assemble; every statement below that gives a path is about a
path without `%`. -/
def unescape : GoString → Except GoString GoString
  | [] => .ok []
  | c :: t =>
    if c = '%' then
      match t with
      | a :: b :: rest =>
        if ishex a && ishex b then
          match unescape rest with
          | .ok r => .ok (Char.ofNat (16 * unhex a + unhex b) :: r)
          | .error e => .error e
        else .error "invalid URL escape".toList
      | _ => .error "invalid URL escape".toList
    else
      match unescape t with
      | .ok r => .ok (c :: r)
      | .error e => .error e

/-- Go `getScheme`: scans for `scheme:`; `seen` is the text scanned so far
(`rawURL[:i]`), the last argument what is left (`rawURL[i:]`). The result is
the scheme and the rest, the scheme empty when the text has none. -/
def getSchemeFrom (rawURL : GoString) : GoString → GoString → Except GoString (GoString × GoString)
  | _, [] => .ok ([], rawURL)
  | seen, c :: t =>
    if c.isAlpha then getSchemeFrom rawURL (seen ++ [c]) t
    else if c.isDigit || c = '+' || c = '-' || c = '.' then
      if seen = [] then .ok ([], rawURL) else getSchemeFrom rawURL (seen ++ [c]) t
    else if c = ':' then
      if seen = [] then .error "missing protocol scheme".toList else .ok (seen, t)
    else .ok ([], rawURL)

/-- Go `getScheme(rawURL)`. -/
def getScheme (rawURL : GoString) : Except GoString (GoString × GoString) :=
  getSchemeFrom rawURL [] rawURL

/-- The characters this model accepts in a host: the unreserved ones, which
`parseHost` of `net/url` takes as they are. -/
def hostChar (c : Char) : Bool :=
  c.isAlphanum || c = '-' || c = '.' || c = '_' || c = '~'

/-- Go `parseAuthority`, for an authority that is a plain registered name (no
user information, port, IPv6 literal or escape). The one authority this client
produces is that of `ApiPath`; any other shape is reported as outside the
model. -/
def parseAuthority (authority : GoString) : Except GoString GoString :=
  if authority.all hostChar then .ok authority
  else .error "authority outside the model".toList

/-- Go `parse(rawURL, false)` of `net/url`, for a URL with a scheme and an
authority (`scheme://host/path?query`), the shape `url` produces: control
characters are refused, the scheme is split off and lowered, the query is cut
at the first `?` (`ForceQuery` when the only `?` is the last character), the
authority runs up to the first `/`, and the rest is the path, unescaped. A URL
of another shape is reported as outside the model. -/
def parseNoFragment (rawURL : GoString) : Except GoString URL :=
  if rawURL.any isCTL then .error "net/url: invalid control character in URL".toList
  else
    match getScheme rawURL with
    | .error e => .error e
    | .ok (scheme, rest) =>
      let force : Bool := rest.getLast? = some '?' && rest.count '?' = 1
      let rest1 := (cut '?' rest).1
      let rawQuery := (cut '?' rest).2.1
      if scheme ≠ [] && hasPrefix rest1 ['/', '/'] then
        let afterSlashes := rest1.drop 2
        let authority := afterSlashes.takeWhile (fun c => c != '/')
        let path := afterSlashes.dropWhile (fun c => c != '/')
        match parseAuthority authority with
        | .error e => .error e
        | .ok host =>
          match unescape path with
          | .error e => .error e
          | .ok p =>
            .ok { Scheme := scheme.map Char.toLower, Host := host, Path := p,
                  ForceQuery := force, RawQuery := rawQuery, Fragment := [] }
      else .error "URL shape outside the model".toList

/-- Go `url.Parse(rawURL)`: the fragment is cut off at the first `#`, the rest
is parsed, and the fragment (when not empty) is unescaped into `Fragment`. -/
def Parse (rawURL : GoString) : Except GoString URL :=
  match parseNoFragment (cut '#' rawURL).1 with
  | .error e => .error e
  | .ok u =>
    if (cut '#' rawURL).2.1 = [] then .ok u
    else
      match unescape (cut '#' rawURL).2.1 with
      | .error e => .error e
      | .ok f => .ok { u with Fragment := f }

/-- A character that `url.Parse` keeps as it is inside a path: not `?` (which
starts the query), not `#` (which starts the fragment), not `%` (which starts
an escape) and not a control character (which `url.Parse` refuses). -/
def plainChar (c : Char) : Bool := c != '?' && c != '#' && c != '%' && !isCTL c

/-- The four verbs of the public methods. -/
def verbs : List GoString := ["GET".toList, "POST".toList, "PUT".toList, "DELETE".toList]

/-! ## `net/http`: building the request -/

/-- Go `httpguts.IsTokenRune`: the characters a method name may be made of. -/
def isTokenChar (c : Char) : Bool :=
  c.isAlphanum || [33, 35, 36, 37, 38, 39, 42, 43, 45, 46, 94, 95, 96, 124, 126].contains c.toNat

/-- Go `validMethod` of `net/http`: a non-empty token. -/
def validMethod (method : GoString) : Bool := method ≠ [] && method.all isTokenChar

/-- The fields of Go's `http.Request` that the program sets: `Body` is `none`
for a nil body and otherwise holds the bytes the reader yields; `Header` lists
the header fields, each with its one value, in the order they were last set. -/
structure Request where
  Method : GoString
  URL : URL
  Header : List (GoString × GoString)
  Body : Option GoString
deriving DecidableEq, Repr

/-- Go `Header.Set(key, value)`: the value of `key` is replaced, or the entry
added. -/
def Request.setHeader (req : Request) (key value : GoString) : Request :=
  { req with Header := (req.Header.filter (fun kv => kv.1 != key)) ++ [(key, value)] }

/-- Go `Header.Get(key)`. -/
def Request.getHeader (req : Request) (key : GoString) : Option GoString :=
  (req.Header.find? (fun kv => kv.1 == key)).map Prod.snd

/-- Go `http.NewRequest(method, urlStr, nil)`: an empty method stands for GET,
the method must be a token, the URL must parse; the request starts with no
header and a nil body. -/
def NewRequest (method urlStr : GoString) : Except GoString Request :=
  let method := if method = [] then "GET".toList else method
  if validMethod method then
    match Parse urlStr with
    | .error e => .error e
    | .ok u => .ok { Method := method, URL := u, Header := [], Body := none }
  else .error "net/http: invalid method".toList

/-! ## The response envelope and the collaborators of `do` -/

/-- Go `url.Values`: parameter names with their values. A nil form is `none`
of `Option Values`, an empty form is `some []`. -/
abbrev Values := List (GoString × List GoString)

/-- Modelled from the spec: the type `GenericResponse` is declared outside
`maxcdn.go`. The spec gives it an `error` sub-structure with a `type` tag and a
human `message`; `do` reads both as strings (`rr.Error.Type_`,
`rr.Error.Message`). -/
structure ErrorInfo where
  Message : GoString
  Type_ : GoString
deriving DecidableEq, Repr

/-- Modelled from the spec: the response envelope `GenericResponse`, declared
outside `maxcdn.go`: the raw payload as received, the decoded body (here its
top-level keys with a rendering of their values; `do` never looks at it) and
the error sub-structure. -/
structure GenericResponse where
  Error : ErrorInfo
  Raw : GoString
  Body : List (GoString × GoString)
deriving DecidableEq, Repr

/-- What the transport yields on success: a status and the bytes of the body. -/
structure HttpResponse where
  StatusCode : Nat
  Body : GoString
deriving DecidableEq, Repr

/-- The collaborators `do` calls and this file takes as given:
* `Encode`: Go `url.Values.Encode`, for a non-nil form;
* `AuthorizationHeader`: the signer
  `max.client.AuthorizationHeader(nil, method, u, form)`, with the credentials
  of the client;
* `Do`: the transport `max.HttpClient.Do(req)`, which yields a response (or
  nil) and an error (or nil);
* `parse`: `genericParser.parse(resp)` (declared outside `maxcdn.go`) followed
  by the type assertion `r.(GenericResponse)`: `none` in the first component
  when the assertion does not hold, and the parser's error. -/
structure Collaborators where
  Encode : Values → GoString
  AuthorizationHeader : GoString → URL → Option Values → GoString
  Do : Request → Option HttpResponse × Option GoString
  parse : HttpResponse → Option GenericResponse × Option GoString

/-- Go `form.Encode()` for a form that may be nil: a nil `url.Values` encodes
to the empty string. -/
def encodeForm (env : Collaborators) : Option Values → GoString
  | none => []
  | some f => env.Encode f

/-- How a call of `do` ends: it returns its two results, or it panics. -/
inductive Outcome where
  | returned (response : Option GenericResponse) (err : Option GoString)
  | panicked (why : GoString)
deriving DecidableEq, Repr

/-- The arguments of one call of the signer. -/
structure SignerCall where
  method : GoString
  u : URL
  form : Option Values
deriving DecidableEq, Repr

/-- What a call of `do` did: the arguments it handed to the signer (if it
reached line 148), the request it handed to the transport (if it reached line
152), and how it ended. -/
structure DoResult where
  signed : Option SignerCall
  sent : Option Request
  outcome : Outcome
deriving DecidableEq, Repr

/-! ## `MaxCDN.do` (maxcdn.go, lines 123-168) -/

/-- Lines 135-141 of `do`: a non-nil form goes into the query of a GET and into
the body of any other method. -/
def placeForm (env : Collaborators) (method : GoString) (req : Request) :
    Option Values → Request
  | none => req
  | some f =>
    if method = "GET".toList then
      { req with URL := { req.URL with RawQuery := env.Encode f } }
    else { req with Body := some (env.Encode f) }

/-- Lines 142-145 of `do`: `if form != nil { if method != "POST" { form = nil } }`. -/
def signedForm (method : GoString) : Option Values → Option Values
  | none => none
  | some f => if method ≠ "POST".toList then none else some f

/-- Lines 159-167 of `do`, after the transport has delivered `resp`. -/
def decode (env : Collaborators) (resp : HttpResponse) : Outcome :=
  match env.parse resp with
  | (none, _) => .panicked "interface conversion: not a GenericResponse".toList
  | (some rr, e) =>
    if e = none ∧ (rr.Error.Message ≠ [] ∨ rr.Error.Type_ ≠ []) then
      .returned (some rr) (some (rr.Error.Type_ ++ ", ".toList ++ rr.Error.Message))
    else .returned (some rr) e

/-- Lines 152-157 of `do`: `resp, err := max.HttpClient.Do(req)`, then
`defer resp.Body.Close()`, which evaluates `resp.Body` and so dereferences
`resp` before `err` is looked at, then `if err != nil { return }`, which
returns the nil `response` and `err`. -/
def afterTransport (env : Collaborators) :
    Option HttpResponse × Option GoString → Outcome
  | (none, _) => .panicked "invalid memory address or nil pointer dereference".toList
  | (some _, some err) => .returned none (some err)
  | (some resp, none) => decode env resp

/-- The method `do` of the source. -/
def do_ (env : Collaborators) (Alias method endpoint : GoString) (form : Option Values) :
    DoResult :=
  match NewRequest method (url Alias endpoint) with
  | .error err => { signed := none, sent := none, outcome := .returned none (some err) }
  | .ok req =>
    if method = "GET".toList ∧ req.URL.RawQuery ≠ [] then
      { signed := none, sent := none,
        outcome := .returned none (some "oauth: url must not contain a query string".toList) }
    else
      let req := placeForm env method req form
      let form := signedForm method form
      let auth := env.AuthorizationHeader method req.URL form
      let req := req.setHeader "Authorization".toList auth
      let req := req.setHeader "Content-Type".toList ContentType
      let req := req.setHeader "User-Agent".toList UserAgent
      { signed := some { method := method, u := req.URL, form := form },
        sent := some req,
        outcome := afterTransport env (env.Do req) }

/-- The request `do` hands to the transport, from the request `NewRequest`
built: lines 135-150. -/
def prepared (env : Collaborators) (method : GoString) (req0 : Request)
    (form : Option Values) : Request :=
  (((placeForm env method req0 form).setHeader "Authorization".toList
      (env.AuthorizationHeader method (placeForm env method req0 form).URL
        (signedForm method form))).setHeader
      "Content-Type".toList ContentType).setHeader "User-Agent".toList UserAgent

/-! ## The public methods (maxcdn.go, lines 50-69) -/

def Get (env : Collaborators) (Alias endpoint : GoString) (form : Option Values) : DoResult :=
  do_ env Alias "GET".toList endpoint form

def Post (env : Collaborators) (Alias endpoint : GoString) (form : Option Values) : DoResult :=
  do_ env Alias "POST".toList endpoint form

def Put (env : Collaborators) (Alias endpoint : GoString) (form : Option Values) : DoResult :=
  do_ env Alias "PUT".toList endpoint form

def Delete (env : Collaborators) (Alias endpoint : GoString) : DoResult :=
  do_ env Alias "DELETE".toList endpoint none

/-- The method `PurgeZone`:
`max.Delete(fmt.Sprintf("/zones/pull.json/%d/cache", zone))`. -/
def PurgeZone (env : Collaborators) (Alias : GoString) (zone : Int) : DoResult :=
  Delete env Alias ("/zones/pull.json/".toList ++ decimal zone ++ "/cache".toList)

/-! ## `MaxCDN.PurgeZones` (maxcdn.go, lines 72-110)

`PurgeZones` starts two goroutines per zone, `send(zone)` and `collect()`, and
waits for all of them on a `sync.WaitGroup`. The goroutines talk over the
channels `rc` and `ec`, which the source declares with `var` and never makes:
both are nil channels. The state below holds where every goroutine stands; a
schedule picks which one moves next. -/

/-- Where a `send(zone)` goroutine stands. -/
inductive SendAt where
  /-- It has not yet run line 85, `r, e := max.PurgeZone(zone)`. -/
  | call (zone : Int)
  /-- It is at line 87, `rc <- r`. -/
  | sendRc (r : Option GenericResponse) (e : Option GoString)
  /-- It is at line 88, `ec <- e`. -/
  | sendEc (e : Option GoString)
  /-- It has returned and its deferred `done()` has run. -/
  | finished
deriving DecidableEq, Repr

/-- The sender stands at line 87, in front of the send on `rc`. -/
def SendAt.atSendRc : SendAt → Bool
  | .sendRc _ _ => true
  | _ => false

/-- Where a `collect()` goroutine stands. -/
inductive CollectAt where
  /-- It is at line 93, `r := <-rc`. -/
  | recvRc
  /-- It is at line 94, `e := <-ec`. -/
  | recvEc (r : Option GenericResponse)
  /-- It is in front of the critical section, lines 96-99. -/
  | critical (r : Option GenericResponse) (e : Option GoString)
  /-- It has returned and its deferred `done()` has run. -/
  | finished
deriving DecidableEq, Repr

/-- The state of one call of `PurgeZones`. A channel variable is `none` when it
holds the nil channel and `some ()` when it holds a channel made with `make`
(unbuffered, so it stores nothing). -/
structure FanOut where
  rc : Option Unit
  ec : Option Unit
  /-- The zones the loop of line 102 has still to visit. -/
  pending : List Int
  /-- The counter of the `sync.WaitGroup`. -/
  waiter : Nat
  senders : List SendAt
  collectors : List CollectAt
  /-- The named results `responses` and `last`. -/
  responses : List GenericResponse
  last : Option GoString
  /-- The requests handed to the transport so far. -/
  requests : List Request
  /-- A goroutine has panicked, which ends the process. -/
  crashed : Bool
  /-- The call has returned `(responses, last)`. -/
  returned : Bool
deriving DecidableEq, Repr

/-- The state at line 102: `var rc chan *GenericResponse` and `var ec chan
error` leave both channels nil, nothing has been started. -/
def FanOut.init (zones : List Int) : FanOut :=
  { rc := none, ec := none, pending := zones, waiter := 0, senders := [],
    collectors := [], responses := [], last := none, requests := [],
    crashed := false, returned := false }

/-- Lines 97-98, the body of the critical section of `collect`:
`responses = append(responses, *r)` and `last = e`. -/
def collectInto (acc : List GenericResponse × Option GoString) (r : GenericResponse)
    (e : Option GoString) : List GenericResponse × Option GoString :=
  (acc.1 ++ [r], e)

/-- One move of the schedule. -/
inductive Move where
  /-- The calling goroutine: one iteration of the loop of lines 102-106, or,
  after the loop, the return of line 109 once `waiter.Wait()` lets it through. -/
  | main
  /-- Sender `i` runs line 85. -/
  | call (i : Nat)
  /-- Sender `i` at line 87 and collector `j` at line 93 meet on `rc`. -/
  | passRc (i j : Nat)
  /-- Sender `i` at line 88 and collector `j` at line 94 meet on `ec`; the
  sender returns. -/
  | passEc (i j : Nat)
  /-- Collector `j` runs its critical section and returns. -/
  | critical (j : Nat)
deriving DecidableEq, Repr

/-- The state after move `m`, or `none` when `m` cannot be made: a send or a
receive on a nil channel blocks for ever, `Wait` blocks while the counter is
not zero, and nothing moves once a goroutine has panicked or the call has
returned. -/
def step (env : Collaborators) (Alias : GoString) (s : FanOut) (m : Move) : Option FanOut :=
  if s.crashed ∨ s.returned then none
  else
    match m with
    | .main =>
      match s.pending with
      | z :: rest =>
        some { s with pending := rest, waiter := s.waiter + 2,
                      senders := s.senders ++ [.call z],
                      collectors := s.collectors ++ [.recvRc] }
      | [] => if s.waiter = 0 then some { s with returned := true } else none
    | .call i =>
      match s.senders[i]? with
      | some (.call z) =>
        match (PurgeZone env Alias z).outcome with
        | .panicked _ =>
          some { s with requests := s.requests ++ (PurgeZone env Alias z).sent.toList,
                        crashed := true }
        | .returned r e =>
          some { s with requests := s.requests ++ (PurgeZone env Alias z).sent.toList,
                        senders := s.senders.set i (.sendRc r e) }
      | _ => none
    | .passRc i j =>
      match s.rc, s.senders[i]?, s.collectors[j]? with
      | some _, some (.sendRc r e), some .recvRc =>
        some { s with senders := s.senders.set i (.sendEc e),
                      collectors := s.collectors.set j (.recvEc r) }
      | _, _, _ => none
    | .passEc i j =>
      match s.ec, s.senders[i]?, s.collectors[j]? with
      | some _, some (.sendEc e), some (.recvEc r) =>
        some { s with senders := s.senders.set i .finished,
                      collectors := s.collectors.set j (.critical r e),
                      waiter := s.waiter - 1 }
      | _, _, _ => none
    | .critical j =>
      match s.collectors[j]? with
      | some (.critical (some r) e) =>
        some { s with responses := (collectInto (s.responses, s.last) r e).1,
                      last := (collectInto (s.responses, s.last) r e).2,
                      collectors := s.collectors.set j .finished,
                      waiter := s.waiter - 1 }
      | some (.critical none _) => some { s with crashed := true }
      | _ => none

/-- The state a schedule leads to; a move that cannot be made is skipped. -/
def exec (env : Collaborators) (Alias : GoString) : FanOut → List Move → FanOut
  | s, [] => s
  | s, m :: ms => exec env Alias ((step env Alias s m).getD s) ms

/-- No move can be made in `s`: every goroutine is blocked or gone. -/
def stuck (env : Collaborators) (Alias : GoString) (s : FanOut) : Prop :=
  ∀ m, step env Alias s m = none

/-- What holds in every state `PurgeZones` reaches from `FanOut.init zones`:
the channels are nil, every sender stands at line 85 or blocked at line 87,
every collector stands blocked at line 93, nothing has been collected, the
counter is twice the number of zones visited, and the call has returned only
if there was no zone. -/
def Blocked (zones : List Int) (s : FanOut) : Prop :=
  s.rc = none ∧ s.ec = none
    ∧ (∀ x ∈ s.senders, (∃ z, x = .call z) ∨ (∃ r e, x = .sendRc r e))
    ∧ (∀ y ∈ s.collectors, y = .recvRc)
    ∧ s.responses = [] ∧ s.last = none
    ∧ s.waiter = 2 * s.senders.length
    ∧ s.pending.length + s.senders.length = zones.length
    ∧ (s.returned = true → zones = [])

/-! ## Concrete collaborators, for evaluating the model -/

/-- A form encoder for examples: `k=v` for every value, joined by `&`, nothing
escaped. -/
def exampleEncode (f : Values) : GoString :=
  ['&'].intercalate (f.flatMap (fun kv => kv.2.map (fun v => kv.1 ++ ['='] ++ v)))

/-- A signer for examples: it spells out whether it was given a form. -/
def exampleSigner (method : GoString) (_u : URL) (form : Option Values) : GoString :=
  "OAuth ".toList ++ method ++ (if form.isSome then " form".toList else [])

/-- A successful envelope. -/
def okEnvelope : GenericResponse :=
  { Error := { Message := [], Type_ := [] }, Raw := "\x7b\x7d".toList, Body := [] }

/-- An envelope whose error sub-object is filled in. -/
def failedEnvelope : GenericResponse :=
  { Error := { Message := "no such zone".toList, Type_ := "invalid".toList },
    Raw := "\x7b\x7d".toList, Body := [] }

/-- Collaborators whose transport answers every request with status 200 and
whose parser decodes every response as `okEnvelope`. -/
def okEnv : Collaborators :=
  { Encode := exampleEncode, AuthorizationHeader := exampleSigner,
    Do := fun _ => (some { StatusCode := 200, Body := [] }, none),
    parse := fun _ => (some okEnvelope, none) }

/-- Collaborators whose parser decodes every response as `failedEnvelope`. -/
def apiErrorEnv : Collaborators :=
  { okEnv with parse := fun _ => (some failedEnvelope, none) }

/-- Collaborators whose transport answers 404 for zone 1 and 200 for every
other request, and whose parser decodes a 200 as `okEnvelope` and anything else
as `failedEnvelope`. -/
def mixedEnv : Collaborators :=
  { okEnv with
    Do := fun req =>
      if req.URL.Path = "/alias/zones/pull.json/1/cache".toList then
        (some { StatusCode := 404, Body := [] }, none)
      else (some { StatusCode := 200, Body := [] }, none),
    parse := fun resp =>
      if resp.StatusCode = 200 then (some okEnvelope, none) else (some failedEnvelope, none) }

/-- Collaborators whose transport reports an error and yields no response. -/
def downEnv : Collaborators :=
  { okEnv with Do := fun _ => (none, some "dial tcp: connection refused".toList) }

/-! ## Lemmas on strings and on parsing -/

theorem cut_of_not_mem (sep : Char) (s : GoString) (h : sep ∉ s) :
    cut sep s = (s, [], false) := by
  induction s with
  | nil => rfl
  | cons c t ih =>
    have hc : ¬ c = sep := fun e => h (by simp [e])
    have ht : sep ∉ t := fun m => h (List.mem_cons_of_mem _ m)
    simp [cut, hc, ih ht]

theorem cut_fst_subset (sep : Char) (s : GoString) : ∀ c ∈ (cut sep s).1, c ∈ s := by
  induction s with
  | nil => intro c hc; simp [cut] at hc
  | cons a t ih =>
    intro c hc
    by_cases ha : a = sep
    · rw [cut, if_pos ha] at hc
      simp at hc
    · simp only [cut, ha, if_false, List.mem_cons] at hc
      rcases hc with rfl | hc
      · simp
      · exact List.mem_cons_of_mem _ (ih c hc)

theorem unescape_of_no_percent (s : GoString) (h : '%' ∉ s) : unescape s = .ok s := by
  induction s with
  | nil => rfl
  | cons c t ih =>
    have hc : ¬ c = '%' := fun e => h (by simp [e])
    have ht : '%' ∉ t := fun m => h (List.mem_cons_of_mem _ m)
    rw [unescape.eq_def]
    simp only [hc, if_false, ih ht]

theorem getScheme_ApiPath (x : GoString) :
    getScheme (ApiPath ++ x) = .ok ("https".toList, "//rws.netdna.com".toList ++ x) := rfl

theorem plainChar_iff (c : Char) :
    plainChar c = true ↔ c ≠ '?' ∧ c ≠ '#' ∧ c ≠ '%' ∧ isCTL c = false := by
  simp [plainChar, and_assoc]

theorem not_mem_of_plain (p : GoString) (h : ∀ c ∈ p, plainChar c = true) :
    '?' ∉ p ∧ '#' ∉ p ∧ '%' ∉ p ∧ p.any isCTL = false := by
  refine ⟨fun m => ?_, fun m => ?_, fun m => ?_, ?_⟩
  · exact ((plainChar_iff _).1 (h _ m)).1 rfl
  · exact ((plainChar_iff _).1 (h _ m)).2.1 rfl
  · exact ((plainChar_iff _).1 (h _ m)).2.2.1 rfl
  · rw [List.any_eq_false]
    intro c hc
    simp [((plainChar_iff _).1 (h _ hc)).2.2.2]

/-- The parsed form of `ApiPath ++ "/" ++ p` for a path `p` of plain
characters. -/
theorem parseNoFragment_plain (p : GoString) (h : ∀ c ∈ p, plainChar c = true) :
    parseNoFragment (ApiPath ++ '/' :: p) =
      .ok { Scheme := "https".toList, Host := "rws.netdna.com".toList, Path := '/' :: p,
            ForceQuery := false, RawQuery := [], Fragment := [] } := by
  obtain ⟨hq, _, hpc, hctl⟩ := not_mem_of_plain p h
  have hq2 : '?' ∉ "//rws.netdna.com".toList ++ '/' :: p := by
    intro m
    rcases List.mem_append.1 m with m | m
    · revert m; decide
    · rcases List.mem_cons.1 m with m | m
      · revert m; decide
      · exact hq m
  have hany : (ApiPath ++ '/' :: p).any isCTL = false := by
    rw [List.any_append, List.any_cons, hctl]
    decide
  have hpc2 : '%' ∉ '/' :: p := by
    intro m
    rcases List.mem_cons.1 m with m | m
    · revert m; decide
    · exact hpc m
  unfold parseNoFragment
  rw [hany, getScheme_ApiPath]
  simp only [cut_of_not_mem _ _ hq2, List.count_eq_zero.2 hq2]
  have hpre : hasPrefix ("//rws.netdna.com".toList ++ '/' :: p) ['/', '/'] = true := rfl
  have htake : (("//rws.netdna.com".toList ++ '/' :: p).drop 2).takeWhile (fun c => c != '/')
      = "rws.netdna.com".toList := rfl
  have hdrop : (("//rws.netdna.com".toList ++ '/' :: p).drop 2).dropWhile (fun c => c != '/')
      = '/' :: p := rfl
  have hauth : parseAuthority "rws.netdna.com".toList = .ok "rws.netdna.com".toList := rfl
  have hlow : "https".toList.map Char.toLower = "https".toList := rfl
  simp [hpre, htake, hdrop, hauth, hlow, unescape_of_no_percent _ hpc2]
  rfl

theorem Parse_plain (p : GoString) (h : ∀ c ∈ p, plainChar c = true) :
    Parse (ApiPath ++ '/' :: p) =
      .ok { Scheme := "https".toList, Host := "rws.netdna.com".toList, Path := '/' :: p,
            ForceQuery := false, RawQuery := [], Fragment := [] } := by
  obtain ⟨_, hh, _, _⟩ := not_mem_of_plain p h
  have hh2 : '#' ∉ ApiPath ++ '/' :: p := by
    intro m
    rcases List.mem_append.1 m with m | m
    · revert m; decide
    · rcases List.mem_cons.1 m with m | m
      · revert m; decide
      · exact hh m
  unfold Parse
  simp [cut_of_not_mem _ _ hh2, parseNoFragment_plain p h]

/-! ## Lemmas on `url` and on `do` -/

theorem url_cons_slash (Alias e : GoString) :
    url Alias ('/' :: e) = ApiPath ++ '/' :: (Alias ++ '/' :: e) := by
  simp [url, trimPrefix, hasPrefix]

theorem url_of_no_slash (Alias e : GoString) (h : hasPrefix e ['/'] = false) :
    url Alias e = ApiPath ++ '/' :: (Alias ++ '/' :: e) := by
  simp [url, trimPrefix, h]

theorem plain_segments (Alias e : GoString) (hA : ∀ c ∈ Alias, plainChar c = true)
    (hE : ∀ c ∈ e, plainChar c = true) : ∀ c ∈ Alias ++ '/' :: e, plainChar c = true := by
  intro c hc
  rcases List.mem_append.1 hc with m | m
  · exact hA c m
  · rcases List.mem_cons.1 m with m | m
    · subst m; decide
    · exact hE c m

theorem NewRequest_verb (method urlStr : GoString) (hm : method ∈ verbs) :
    NewRequest method urlStr =
      match Parse urlStr with
      | .error e => .error e
      | .ok u => .ok { Method := method, URL := u, Header := [], Body := none } := by
  have h4 : method = "GET".toList ∨ method = "POST".toList ∨ method = "PUT".toList
      ∨ method = "DELETE".toList := by
    simpa [verbs] using hm
  rcases h4 with rfl | rfl | rfl | rfl <;> rfl

@[simp] theorem setHeader_URL (req : Request) (k v : GoString) :
    (req.setHeader k v).URL = req.URL := rfl

@[simp] theorem setHeader_Body (req : Request) (k v : GoString) :
    (req.setHeader k v).Body = req.Body := rfl

@[simp] theorem setHeader_Method (req : Request) (k v : GoString) :
    (req.setHeader k v).Method = req.Method := rfl

/-- What `do` does once `NewRequest` has built `req0` and the check of line
131 has passed. -/
theorem do_of_request (env : Collaborators) (Alias method endpoint : GoString)
    (form : Option Values) (req0 : Request)
    (hreq : NewRequest method (url Alias endpoint) = .ok req0)
    (hq : ¬ (method = "GET".toList ∧ req0.URL.RawQuery ≠ [])) :
    do_ env Alias method endpoint form =
      { signed := some { method := method, u := (placeForm env method req0 form).URL,
                         form := signedForm method form },
        sent := some (prepared env method req0 form),
        outcome := afterTransport env (env.Do (prepared env method req0 form)) } := by
  unfold do_
  rw [hreq]
  simp only [if_neg hq]
  rfl

/-- A call of `do` that reached the signer or the transport built its request
and passed the check of line 131. -/
theorem do_reached (env : Collaborators) (Alias method endpoint : GoString)
    (form : Option Values)
    (h : (do_ env Alias method endpoint form).signed ≠ none
      ∨ (do_ env Alias method endpoint form).sent ≠ none) :
    ∃ req0, NewRequest method (url Alias endpoint) = .ok req0
      ∧ ¬ (method = "GET".toList ∧ req0.URL.RawQuery ≠ []) := by
  unfold do_ at h
  cases hreq : NewRequest method (url Alias endpoint) with
  | error e => rw [hreq] at h; simp at h
  | ok req0 =>
    refine ⟨req0, rfl, fun hq => ?_⟩
    rw [hreq] at h
    simp only [if_pos hq] at h
    simp at h

/-- What `do` does for a verb, an alias and an endpoint of plain characters. -/
theorem do_plain (env : Collaborators) (Alias method p : GoString) (form : Option Values)
    (endpoint : GoString) (hm : method ∈ verbs)
    (hurl : url Alias endpoint = ApiPath ++ '/' :: p)
    (hp : ∀ c ∈ p, plainChar c = true) :
    ∃ req0 : Request, req0.Method = method ∧ req0.URL.Path = '/' :: p
      ∧ req0.URL.RawQuery = [] ∧ req0.Body = none
      ∧ do_ env Alias method endpoint form =
        { signed := some { method := method, u := (placeForm env method req0 form).URL,
                           form := signedForm method form },
          sent := some (prepared env method req0 form),
          outcome := afterTransport env (env.Do (prepared env method req0 form)) } := by
  have hreq := NewRequest_verb method (url Alias endpoint) hm
  rw [hurl, Parse_plain p hp] at hreq
  rw [← hurl] at hreq
  exact ⟨_, rfl, rfl, rfl, rfl, do_of_request env Alias method endpoint form _ hreq (by simp)⟩

@[simp] theorem placeForm_Path (env : Collaborators) (method : GoString) (req : Request)
    (form : Option Values) : (placeForm env method req form).URL.Path = req.URL.Path := by
  cases form with
  | none => rfl
  | some f => simp only [placeForm]; split_ifs <;> rfl

@[simp] theorem placeForm_Method (env : Collaborators) (method : GoString) (req : Request)
    (form : Option Values) : (placeForm env method req form).Method = req.Method := by
  cases form with
  | none => rfl
  | some f => simp only [placeForm]; split_ifs <;> rfl

@[simp] theorem prepared_URL (env : Collaborators) (method : GoString) (req : Request)
    (form : Option Values) :
    (prepared env method req form).URL = (placeForm env method req form).URL := rfl

@[simp] theorem prepared_Body (env : Collaborators) (method : GoString) (req : Request)
    (form : Option Values) :
    (prepared env method req form).Body = (placeForm env method req form).Body := rfl

@[simp] theorem prepared_Method (env : Collaborators) (method : GoString) (req : Request)
    (form : Option Values) : (prepared env method req form).Method = req.Method := by
  simp [prepared]

theorem getSchemeFrom_rest (raw : GoString) :
    ∀ (s seen sch rest : GoString), getSchemeFrom raw seen s = .ok (sch, rest) →
      ∀ c ∈ rest, c ∈ raw ∨ c ∈ s := by
  intro s
  induction s with
  | nil =>
    intro seen sch rest h c hc
    simp only [getSchemeFrom, Except.ok.injEq, Prod.mk.injEq] at h
    exact Or.inl (h.2 ▸ hc)
  | cons a t ih =>
    intro seen sch rest h c hc
    unfold getSchemeFrom at h
    split_ifs at h with h1 h2 h3 h4 h5
    · rcases ih _ _ _ h c hc with m | m
      · exact Or.inl m
      · exact Or.inr (List.mem_cons_of_mem _ m)
    · simp only [Except.ok.injEq, Prod.mk.injEq] at h
      exact Or.inl (h.2 ▸ hc)
    · rcases ih _ _ _ h c hc with m | m
      · exact Or.inl m
      · exact Or.inr (List.mem_cons_of_mem _ m)
    · simp only [Except.ok.injEq, Prod.mk.injEq] at h
      exact Or.inr (List.mem_cons_of_mem _ (h.2 ▸ hc))
    · simp only [Except.ok.injEq, Prod.mk.injEq] at h
      exact Or.inl (h.2 ▸ hc)

/-- A URL without `?` parses with an empty query. -/
theorem parseNoFragment_rawQuery (x : GoString) (u : URL)
    (h : parseNoFragment x = .ok u) (hq : '?' ∉ x) : u.RawQuery = [] := by
  unfold parseNoFragment at h
  split_ifs at h with hctl
  cases hg : getScheme x with
  | error e => rw [hg] at h; simp at h
  | ok sr =>
    obtain ⟨scheme, rest⟩ := sr
    rw [hg] at h
    have hrest : '?' ∉ rest := by
      intro m
      rcases getSchemeFrom_rest x x [] scheme rest hg _ m with m | m <;> exact hq m
    simp only [cut_of_not_mem _ _ hrest] at h
    split_ifs at h
    split at h
    · simp at h
    · split at h
      · simp at h
      · simp only [Except.ok.injEq] at h
        rw [← h]

theorem Parse_rawQuery (raw : GoString) (u : URL) (h : Parse raw = .ok u)
    (hq : '?' ∉ raw) : u.RawQuery = [] := by
  unfold Parse at h
  cases h0 : parseNoFragment (cut '#' raw).1 with
  | error e => rw [h0] at h; simp at h
  | ok u0 =>
    rw [h0] at h
    have hq0 : '?' ∉ (cut '#' raw).1 := fun m => hq (cut_fst_subset _ _ _ m)
    have hr := parseNoFragment_rawQuery _ _ h0 hq0
    simp only at h
    split_ifs at h
    · simp only [Except.ok.injEq] at h
      rw [← h, hr]
    · split at h
      · simp at h
      · simp only [Except.ok.injEq] at h
        rw [← h]
        exact hr

theorem NewRequest_inv (method urlStr : GoString) (req0 : Request)
    (h : NewRequest method urlStr = .ok req0) :
    Parse urlStr = .ok req0.URL ∧ req0.Body = none ∧ req0.Header = [] := by
  unfold NewRequest at h
  simp only at h
  cases hp : Parse urlStr with
  | error e => rw [hp] at h; split_ifs at h
  | ok u =>
    rw [hp] at h
    split_ifs at h <;>
    · simp only [Except.ok.injEq] at h
      rw [← h]
      exact ⟨rfl, rfl, rfl⟩

theorem trimPrefix_subset (s pre : GoString) : ∀ c ∈ trimPrefix s pre, c ∈ s := by
  intro c hc
  unfold trimPrefix at hc
  split_ifs at hc
  · exact List.mem_of_mem_drop hc
  · exact hc

theorem question_not_mem_url (Alias endpoint : GoString) (hA : '?' ∉ Alias)
    (hE : '?' ∉ endpoint) : '?' ∉ url Alias endpoint := by
  intro m
  simp only [url, List.mem_append] at m
  rcases m with ((((m | m) | m) | m) | m)
  · revert m; decide
  · revert m; decide
  · exact hA m
  · revert m; decide
  · exact hE (trimPrefix_subset _ _ _ m)

/-- What a call of `do` that handed a request to the transport did. -/
theorem do_sent (env : Collaborators) (Alias method endpoint : GoString)
    (form : Option Values) (req : Request)
    (h : (do_ env Alias method endpoint form).sent = some req) :
    ∃ req0, NewRequest method (url Alias endpoint) = .ok req0
      ∧ ¬ (method = "GET".toList ∧ req0.URL.RawQuery ≠ [])
      ∧ req = prepared env method req0 form
      ∧ (do_ env Alias method endpoint form).signed =
          some { method := method, u := req.URL, form := signedForm method form }
      ∧ (do_ env Alias method endpoint form).outcome = afterTransport env (env.Do req) := by
  obtain ⟨req0, hreq, hq⟩ :=
    do_reached env Alias method endpoint form (Or.inr (by rw [h]; simp))
  have hdo := do_of_request env Alias method endpoint form req0 hreq hq
  rw [hdo] at h
  have hr : prepared env method req0 form = req := Option.some.inj h
  refine ⟨req0, hreq, hq, hr.symm, ?_, ?_⟩
  · rw [hdo, ← hr]; rfl
  · rw [hdo, ← hr]

theorem signedForm_POST (form : Option Values) : signedForm "POST".toList form = form := by
  cases form <;> rfl

theorem signedForm_other (method : GoString) (form : Option Values)
    (h : method ≠ "POST".toList) : signedForm method form = none := by
  cases form with
  | none => rfl
  | some f => simp only [signedForm]; rw [if_pos h]

theorem digitChar_plain : ∀ d, d < 10 → plainChar (Nat.digitChar d) = true := by
  decide

theorem toDigitsCore_plain (fuel : Nat) :
    ∀ (n : Nat) (acc : List Char), (∀ c ∈ acc, plainChar c = true) →
      ∀ c ∈ Nat.toDigitsCore 10 fuel n acc, plainChar c = true := by
  induction fuel with
  | zero => intro n acc hacc c hc; simp only [Nat.toDigitsCore] at hc; exact hacc c hc
  | succ k ih =>
    intro n acc hacc c hc
    have hcons : ∀ x ∈ Nat.digitChar (n % 10) :: acc, plainChar x = true := by
      intro x hx
      rcases List.mem_cons.1 hx with e | m
      · rw [e]; exact digitChar_plain _ (Nat.mod_lt _ (by decide))
      · exact hacc x m
    simp only [Nat.toDigitsCore] at hc
    split_ifs at hc
    · exact hcons c hc
    · exact ih _ _ hcons c hc

theorem decimal_plain (z : Int) : ∀ c ∈ decimal z, plainChar c = true := by
  intro c hc
  have hd : ∀ n, ∀ x ∈ Nat.toDigits 10 n, plainChar x = true := fun n =>
    toDigitsCore_plain _ n [] (fun _ h => absurd h (List.not_mem_nil _))
  unfold decimal at hc
  split_ifs at hc
  · rcases List.mem_cons.1 hc with e | m
    · rw [e]; decide
    · exact hd _ c m
  · exact hd _ c hc

/-! ## C1 and C2: URL assembly -/

/-- C2 as stated fails: `url` trims one leading separator, not all of them. For
the endpoint `//a` a separator is left in front of `a`, so the result is not
the root, the alias and the endpoint without its leading separators. -/
theorem url_keeps_second_separator :
    url "alias".toList "//a".toList ≠
      ApiPath ++ "/".toList ++ "alias".toList ++ "/".toList
        ++ ("//a".toList).dropWhile (fun c => c == '/') := by
  decide

/-- C2, amended: for every alias and endpoint, `url` is the root, a separator,
the alias, a separator, and the endpoint without its first character when that
is a separator (one separator is trimmed, the rest of the endpoint is kept as
it is); for an endpoint that does not start with two separators this is the
endpoint with all its leading separators trimmed. -/
theorem url_trims_one_separator (Alias endpoint : GoString) :
    url Alias endpoint =
        ApiPath ++ "/".toList ++ Alias ++ "/".toList
          ++ (if endpoint.head? = some '/' then endpoint.tail else endpoint)
      ∧ (hasPrefix endpoint "//".toList = false →
          url Alias endpoint =
            ApiPath ++ "/".toList ++ Alias ++ "/".toList
              ++ endpoint.dropWhile (fun c => c == '/')) := by
  cases endpoint with
  | nil => exact ⟨rfl, fun _ => rfl⟩
  | cons c t =>
    by_cases hc : c = '/'
    · subst hc
      refine ⟨by simp [url, trimPrefix, hasPrefix], fun h => ?_⟩
      cases t with
      | nil => simp [url, trimPrefix, hasPrefix]
      | cons d t2 =>
        have hd : ¬ d = '/' := by
          intro e; subst e; simp [hasPrefix] at h
        simp [url, trimPrefix, hasPrefix, hd]
    · have hb : ('/' == c) = false := by
        rw [beq_eq_false_iff_ne]
        exact fun e => hc e.symm
      have h1 : hasPrefix (c :: t) ['/'] = false := by simp [hasPrefix, List.isPrefixOf, hb]
      refine ⟨by simp [url, trimPrefix, h1, hc], fun _ => ?_⟩
      simp [url, trimPrefix, h1, hc]

/-- The amended C2 at `/account.json`. -/
theorem url_trims_one_separator_witness :
    hasPrefix "/account.json".toList "//".toList = false
      ∧ url "alias".toList "/account.json".toList
          = "https://rws.netdna.com/alias/account.json".toList :=
  ⟨by decide,
   ((url_trims_one_separator "alias".toList "/account.json".toList).2 (by decide)).trans
     (by decide)⟩

/-- C1 as stated fails: the endpoint `a#b` holds no `?` and starts with no
separator, yet the path of the request `Get` builds for it is `/alias/a`, the
text after `#` being the fragment, and not `/alias/a#b`. -/
theorem do_path_stops_at_fragment :
    ¬ (∀ (env : Collaborators) (Alias method e : GoString) (form : Option Values),
        method ∈ verbs → '?' ∉ e → hasPrefix e ['/'] = false →
        ∃ req req2, (do_ env Alias method ('/' :: e) form).sent = some req
          ∧ (do_ env Alias method e form).sent = some req2
          ∧ req.URL = req2.URL
          ∧ req.URL.Path = "/".toList ++ Alias ++ "/".toList ++ e) := by
  intro h
  obtain ⟨req, req2, h1, -, -, h4⟩ :=
    h okEnv "alias".toList "GET".toList "a#b".toList none (by decide) (by decide) (by decide)
  have hp : ((do_ okEnv "alias".toList "GET".toList ('/' :: "a#b".toList) none).sent.map
      (fun r => r.URL.Path)) = some "/alias/a".toList := by decide
  rw [h1] at hp
  have hp2 : req.URL.Path = "/alias/a".toList := Option.some.inj hp
  rw [h4] at hp2
  revert hp2
  decide

/-- C1, amended: for every method, form, alias and endpoint `e` that starts
with no separator, `do` does the same for `/e` as for `e`; and when the method
is one of the four verbs and the alias and `e` are made of characters other
than `?`, `#`, `%` and control characters, the request it sends has the verb as
method and the path `/alias/e`. -/
theorem do_leading_separator (env : Collaborators) (Alias method e : GoString)
    (form : Option Values) (hs : hasPrefix e ['/'] = false) :
    do_ env Alias method ('/' :: e) form = do_ env Alias method e form
      ∧ (method ∈ verbs → (∀ c ∈ Alias, plainChar c = true) →
          (∀ c ∈ e, plainChar c = true) →
          ∃ req, (do_ env Alias method e form).sent = some req
            ∧ req.Method = method
            ∧ req.URL.Path = "/".toList ++ Alias ++ "/".toList ++ e) := by
  constructor
  · unfold do_
    rw [url_cons_slash, url_of_no_slash Alias e hs]
  · intro hm hA hE
    obtain ⟨req0, hmeth, hpath, -, -, hdo⟩ :=
      do_plain env Alias method (Alias ++ '/' :: e) form e hm (url_of_no_slash Alias e hs)
        (plain_segments Alias e hA hE)
    refine ⟨_, by rw [hdo], ?_, ?_⟩
    · simp [hmeth]
    · simp [hpath]

/-- The amended C1 at the alias `alias` and the endpoint `account.json`. -/
theorem do_leading_separator_witness :
    Get okEnv "alias".toList "/account.json".toList none
        = Get okEnv "alias".toList "account.json".toList none
      ∧ ∃ req, (Get okEnv "alias".toList "account.json".toList none).sent = some req
          ∧ req.Method = "GET".toList
          ∧ req.URL.Path = "/alias/account.json".toList :=
  ⟨(do_leading_separator okEnv "alias".toList "GET".toList "account.json".toList none
      (by decide)).1,
   (do_leading_separator okEnv "alias".toList "GET".toList "account.json".toList none
      (by decide)).2 (by decide) (by decide) (by decide)⟩

/-! ## C3 and C4: where the form goes -/

/-- Where the form is in whatever request `do` hands to the transport, for
every alias, endpoint and form: a request of `Get` has the encoding of the form
as its raw query (the empty string for a nil form) and no body; a request of
`Post` or `Put` for a non-nil form has the encoding of the form as its body; a
request of any method for a nil form has no body. -/
theorem placement_of_sent (env : Collaborators) (Alias endpoint : GoString) :
    (∀ form req, (Get env Alias endpoint form).sent = some req →
        req.URL.RawQuery = encodeForm env form ∧ req.Body = none)
    ∧ (∀ f req, (Post env Alias endpoint (some f)).sent = some req →
        req.Body = some (env.Encode f)
          ∧ ('?' ∉ Alias → '?' ∉ endpoint → req.URL.RawQuery = []))
    ∧ (∀ f req, (Put env Alias endpoint (some f)).sent = some req →
        req.Body = some (env.Encode f)
          ∧ ('?' ∉ Alias → '?' ∉ endpoint → req.URL.RawQuery = []))
    ∧ (∀ method req, (do_ env Alias method endpoint none).sent = some req →
        req.Body = none) := by
  refine ⟨?_, ?_, ?_, ?_⟩
  · intro form req h
    obtain ⟨req0, hreq, hcheck, hr, -, -⟩ := do_sent env Alias _ endpoint form req h
    obtain ⟨-, hbody, -⟩ := NewRequest_inv _ _ _ hreq
    have h0 : req0.URL.RawQuery = [] := by
      by_contra hne
      exact hcheck ⟨rfl, hne⟩
    subst hr
    cases form with
    | none => exact ⟨h0, hbody⟩
    | some f => exact ⟨rfl, hbody⟩
  · intro f req h
    obtain ⟨req0, hreq, -, hr, -, -⟩ := do_sent env Alias _ endpoint (some f) req h
    obtain ⟨hparse, -, -⟩ := NewRequest_inv _ _ _ hreq
    subst hr
    exact ⟨rfl, fun hA hE =>
      Parse_rawQuery _ _ hparse (question_not_mem_url Alias endpoint hA hE)⟩
  · intro f req h
    obtain ⟨req0, hreq, -, hr, -, -⟩ := do_sent env Alias _ endpoint (some f) req h
    obtain ⟨hparse, -, -⟩ := NewRequest_inv _ _ _ hreq
    subst hr
    exact ⟨rfl, fun hA hE =>
      Parse_rawQuery _ _ hparse (question_not_mem_url Alias endpoint hA hE)⟩
  · intro method req h
    obtain ⟨req0, hreq, -, hr, -, -⟩ := do_sent env Alias method endpoint none req h
    obtain ⟨-, hbody, -⟩ := NewRequest_inv _ _ _ hreq
    subst hr
    exact hbody

/-- A verb sends a request whenever the URL parses with an empty raw query. -/
theorem verb_sends (env : Collaborators) (Alias method endpoint : GoString)
    (form : Option Values) (u : URL) (hm : method ∈ verbs)
    (hparse : Parse (url Alias endpoint) = .ok u) (h0 : u.RawQuery = []) :
    ∃ req, (do_ env Alias method endpoint form).sent = some req := by
  have hreq := NewRequest_verb method (url Alias endpoint) hm
  rw [hparse] at hreq
  have hdo := do_of_request env Alias method endpoint form _ hreq (fun hq => hq.2 h0)
  exact ⟨_, by rw [hdo]⟩

/-- C3 as stated fails: an endpoint without `?` need not give a request at
all. The endpoint `a%zz` holds no `?`, but its escape is malformed, so
`http.NewRequest` fails and `Post` with the form `name=foo` sends nothing: no
body equal to the encoding of the form goes out. -/
theorem Post_malformed_escape_sends_nothing :
    ¬ (∀ (env : Collaborators) (Alias endpoint : GoString) (f : Values),
        '?' ∉ endpoint →
        ∃ req, (Post env Alias endpoint (some f)).sent = some req
          ∧ req.Body = some (env.Encode f) ∧ req.URL.RawQuery = []) := by
  intro h
  obtain ⟨req, h1, -, -⟩ :=
    h okEnv "alias".toList "a%zz".toList [("name".toList, ["foo".toList])] (by decide)
  have hn : (Post okEnv "alias".toList "a%zz".toList
      (some [("name".toList, ["foo".toList])])).sent = none := by decide
  rw [hn] at h1
  exact absurd h1 (by simp)

/-- C3, amended: for every alias and endpoint that hold no `?` and whose URL
parses, and every form: `Get` sends a request whose raw query is the encoding
of the form (the empty string for a nil form) and which has no body; `Post` and
`Put` with a non-nil form each send a request whose body is the encoding of the
form and whose raw query is empty; every verb with a nil form sends a request
without a body. -/
theorem form_placement (env : Collaborators) (Alias endpoint : GoString) (u : URL)
    (hparse : Parse (url Alias endpoint) = .ok u)
    (hA : '?' ∉ Alias) (hE : '?' ∉ endpoint) :
    (∀ form, ∃ req, (Get env Alias endpoint form).sent = some req
        ∧ req.URL.RawQuery = encodeForm env form ∧ req.Body = none)
    ∧ (∀ f, ∃ req, (Post env Alias endpoint (some f)).sent = some req
        ∧ req.Body = some (env.Encode f) ∧ req.URL.RawQuery = [])
    ∧ (∀ f, ∃ req, (Put env Alias endpoint (some f)).sent = some req
        ∧ req.Body = some (env.Encode f) ∧ req.URL.RawQuery = [])
    ∧ (∀ method, method ∈ verbs →
        ∃ req, (do_ env Alias method endpoint none).sent = some req
          ∧ req.Body = none) := by
  have h0 : u.RawQuery = [] :=
    Parse_rawQuery _ _ hparse (question_not_mem_url Alias endpoint hA hE)
  obtain ⟨hget, hpost, hput, hnil⟩ := placement_of_sent env Alias endpoint
  refine ⟨fun form => ?_, fun f => ?_, fun f => ?_, fun method hm => ?_⟩
  · obtain ⟨req, hs⟩ :=
      verb_sends env Alias "GET".toList endpoint form u (by decide) hparse h0
    exact ⟨req, hs, hget form req hs⟩
  · obtain ⟨req, hs⟩ :=
      verb_sends env Alias "POST".toList endpoint (some f) u (by decide) hparse h0
    exact ⟨req, hs, (hpost f req hs).1, (hpost f req hs).2 hA hE⟩
  · obtain ⟨req, hs⟩ :=
      verb_sends env Alias "PUT".toList endpoint (some f) u (by decide) hparse h0
    exact ⟨req, hs, (hput f req hs).1, (hput f req hs).2 hA hE⟩
  · obtain ⟨req, hs⟩ := verb_sends env Alias method endpoint none u hm hparse h0
    exact ⟨req, hs, hnil method req hs⟩

/-- The amended C3 at the alias `alias`, the endpoint `/account.json` and the
form `name=foo`: `Post` and `Put` each send the body `name=foo` and an empty
query, `Get` sends the query `name=foo` and no body, and `Delete` sends no
body. -/
theorem form_placement_witness :
    (∃ req, (Get okEnv "alias".toList "/account.json".toList
        (some [("name".toList, ["foo".toList])])).sent = some req
      ∧ req.URL.RawQuery = "name=foo".toList ∧ req.Body = none)
    ∧ (∃ req, (Post okEnv "alias".toList "/account.json".toList
        (some [("name".toList, ["foo".toList])])).sent = some req
      ∧ req.Body = some "name=foo".toList ∧ req.URL.RawQuery = [])
    ∧ (∃ req, (Put okEnv "alias".toList "/account.json".toList
        (some [("name".toList, ["foo".toList])])).sent = some req
      ∧ req.Body = some "name=foo".toList ∧ req.URL.RawQuery = [])
    ∧ (∃ req, (Delete okEnv "alias".toList "/account.json".toList).sent = some req
      ∧ req.Body = none) :=
  have h := form_placement okEnv "alias".toList "/account.json".toList
    { Scheme := "https".toList, Host := "rws.netdna.com".toList,
      Path := "/alias/account.json".toList, ForceQuery := false,
      RawQuery := [], Fragment := [] } (by rfl) (by decide) (by decide)
  ⟨h.1 (some [("name".toList, ["foo".toList])]),
   h.2.1 [("name".toList, ["foo".toList])],
   h.2.2.1 [("name".toList, ["foo".toList])],
   h.2.2.2 "DELETE".toList (by decide)⟩

/-- C4: when `do` calls the signer, the form it hands over is the form of the
caller for POST and nil for every other method, the method is the method of
the call, the URL is the URL of the request that goes to the transport, and
for GET the raw query of that URL is the encoding of the form. -/
theorem signer_arguments (env : Collaborators) (Alias method endpoint : GoString)
    (form : Option Values) (sc : SignerCall)
    (h : (do_ env Alias method endpoint form).signed = some sc) :
    (method = "POST".toList → sc.form = form)
    ∧ (method ≠ "POST".toList → sc.form = none)
    ∧ sc.method = method
    ∧ (∃ req, (do_ env Alias method endpoint form).sent = some req ∧ req.URL = sc.u)
    ∧ (method = "GET".toList → sc.u.RawQuery = encodeForm env form) := by
  obtain ⟨req0, hreq, hq⟩ :=
    do_reached env Alias method endpoint form (Or.inl (by rw [h]; simp))
  have hdo := do_of_request env Alias method endpoint form req0 hreq hq
  rw [hdo] at h
  have hsc := Option.some.inj h
  subst hsc
  refine ⟨fun hm => ?_, fun hm => ?_, rfl,
    ⟨prepared env method req0 form, by rw [hdo], rfl⟩, fun hm => ?_⟩
  · subst hm; exact signedForm_POST form
  · exact signedForm_other method form hm
  · subst hm
    have h0 : req0.URL.RawQuery = [] := by
      by_contra hne
      exact hq ⟨rfl, hne⟩
    cases form with
    | none => exact h0
    | some f => rfl

/-- C4 at a `Get` with the form `name=foo`: the signer gets no form and a URL
whose query is `name=foo`. -/
theorem signer_arguments_witness :
    ∃ sc, (Get okEnv "alias".toList "/account.json".toList
        (some [("name".toList, ["foo".toList])])).signed = some sc
      ∧ sc.form = none ∧ sc.u.RawQuery = "name=foo".toList :=
  ⟨_, rfl,
    (signer_arguments okEnv "alias".toList "GET".toList "/account.json".toList
      (some [("name".toList, ["foo".toList])]) _ rfl).2.1 (by decide),
    (signer_arguments okEnv "alias".toList "GET".toList "/account.json".toList
      (some [("name".toList, ["foo".toList])]) _ rfl).2.2.2.2 rfl⟩

/-! ## C5 and C6: what `do` returns -/

/-- C5: when the transport delivers a response for the request `do` sent and
the response decodes without error into the envelope `rr`, `do` returns `rr`
together with an error that is non-nil exactly when the type or the message of
the error sub-object is not empty; a non-nil error is the type, a comma and a
blank, and the message. -/
theorem api_error_surfaced (env : Collaborators) (Alias method endpoint : GoString)
    (form : Option Values) (req : Request) (resp : HttpResponse) (rr : GenericResponse)
    (hsent : (do_ env Alias method endpoint form).sent = some req)
    (hdo : env.Do req = (some resp, none))
    (hparse : env.parse resp = (some rr, none)) :
    ∃ err, (do_ env Alias method endpoint form).outcome = .returned (some rr) err
      ∧ (err ≠ none ↔ (rr.Error.Type_ ≠ [] ∨ rr.Error.Message ≠ []))
      ∧ (err ≠ none →
          err = some (rr.Error.Type_ ++ ", ".toList ++ rr.Error.Message)) := by
  obtain ⟨req0, -, -, -, -, hout⟩ := do_sent env Alias method endpoint form req hsent
  rw [hout, hdo]
  simp only [afterTransport, decode, hparse]
  by_cases he : rr.Error.Message ≠ [] ∨ rr.Error.Type_ ≠ []
  · refine ⟨_, by rw [if_pos ⟨trivial, he⟩], ?_, fun _ => rfl⟩
    simp only [ne_eq, reduceCtorEq, not_false_eq_true, true_iff]
    exact he.symm
  · refine ⟨none, by rw [if_neg (fun h => he h.2)], ?_, fun h => absurd rfl h⟩
    simp only [ne_eq, not_true_eq_false, false_iff]
    exact fun h => he h.symm

/-- C5 at an envelope with the type `invalid` and the message `no such zone`. -/
theorem api_error_surfaced_witness :
    ∃ err, (Get apiErrorEnv "alias".toList "/account.json".toList none).outcome
        = .returned (some failedEnvelope) err
      ∧ (err ≠ none ↔
          (failedEnvelope.Error.Type_ ≠ [] ∨ failedEnvelope.Error.Message ≠ []))
      ∧ (err ≠ none →
          err = some (failedEnvelope.Error.Type_ ++ ", ".toList
            ++ failedEnvelope.Error.Message)) :=
  api_error_surfaced apiErrorEnv "alias".toList "GET".toList "/account.json".toList none
    _ { StatusCode := 200, Body := [] } failedEnvelope rfl rfl rfl

/-- C6 fails on the code: when the transport reports an error and yields no
response, `do` does not return that error; `defer resp.Body.Close()` comes
before the test of `err` and dereferences the nil response, so `do` panics. -/
theorem transport_error_panics (env : Collaborators) (Alias method endpoint : GoString)
    (form : Option Values) (req : Request) (err : GoString)
    (hsent : (do_ env Alias method endpoint form).sent = some req)
    (hdo : env.Do req = (none, some err)) :
    (do_ env Alias method endpoint form).outcome
        = .panicked "invalid memory address or nil pointer dereference".toList
      ∧ (do_ env Alias method endpoint form).outcome ≠ .returned none (some err) := by
  obtain ⟨req0, -, -, -, -, hout⟩ := do_sent env Alias method endpoint form req hsent
  rw [hout, hdo]
  exact ⟨rfl, by simp [afterTransport]⟩

/-- The failing input of C6: `Get("/account.json", nil)` over a transport that
reports `connection refused`. -/
theorem transport_error_panics_witness :
    (Get downEnv "alias".toList "/account.json".toList none).outcome
        = .panicked "invalid memory address or nil pointer dereference".toList
      ∧ (Get downEnv "alias".toList "/account.json".toList none).outcome
        ≠ .returned none (some "dial tcp: connection refused".toList) :=
  transport_error_panics downEnv "alias".toList "GET".toList "/account.json".toList none
    _ "dial tcp: connection refused".toList rfl rfl

/-! ## C7: the query check of `Get` -/

/-- C7 as stated fails: an endpoint may contain `?` and the URL built from it
still parse with an empty query. For `account.json?` the check of line 131
passes and `Get` hands the request to the transport. -/
theorem Get_trailing_question_mark_is_sent :
    ¬ (∀ (env : Collaborators) (Alias endpoint : GoString) (form : Option Values),
        '?' ∈ endpoint →
        (Get env Alias endpoint form).sent = none
          ∧ ∃ err, (Get env Alias endpoint form).outcome = .returned none (some err)) := by
  intro h
  have h1 := (h okEnv "alias".toList "account.json?".toList none (by decide)).1
  revert h1
  decide

/-- C7, amended: when the URL built for a `Get` parses with a non-empty raw
query, `Get` returns a nil response and the error `oauth: url must not contain
a query string`, and neither the signer nor the transport is called; when it
parses with an empty raw query, the check passes: the signer is called and the
request goes to the transport. -/
theorem Get_query_check (env : Collaborators) (Alias endpoint : GoString)
    (form : Option Values) (u : URL) (hparse : Parse (url Alias endpoint) = .ok u) :
    (u.RawQuery ≠ [] →
        Get env Alias endpoint form =
          { signed := none, sent := none,
            outcome := .returned none
              (some "oauth: url must not contain a query string".toList) })
    ∧ (u.RawQuery = [] →
        ∃ req, (Get env Alias endpoint form).sent = some req
          ∧ (Get env Alias endpoint form).signed ≠ none
          ∧ (Get env Alias endpoint form).outcome = afterTransport env (env.Do req)) := by
  have hreq := NewRequest_verb "GET".toList (url Alias endpoint) (by decide)
  rw [hparse] at hreq
  constructor
  · intro hne
    unfold Get do_
    rw [hreq]
    simp only
    rw [if_pos ⟨trivial, hne⟩]
  · intro he
    have hdo := do_of_request env Alias "GET".toList endpoint form _ hreq
      (fun hq => hq.2 he)
    refine ⟨_, by unfold Get; rw [hdo], ?_, ?_⟩
    · unfold Get; rw [hdo]; simp
    · unfold Get; rw [hdo]

/-- The amended C7 at the endpoint `/account.json?page=2`. -/
theorem Get_query_check_witness :
    Get okEnv "alias".toList "/account.json?page=2".toList none =
      { signed := none, sent := none,
        outcome := .returned none
          (some "oauth: url must not contain a query string".toList) } :=
  (Get_query_check okEnv "alias".toList "/account.json?page=2".toList none
    { Scheme := "https".toList, Host := "rws.netdna.com".toList,
      Path := "/alias/account.json".toList, ForceQuery := false,
      RawQuery := "page=2".toList, Fragment := [] } (by rfl)).1 (by decide)

/-! ## C8: `PurgeZone` -/

/-- C8: for every zone and alias, `PurgeZone(zone)` is `Delete` on the endpoint
`/zones/pull.json/<zone>/cache` with the zone in decimal, and the URL it builds
is the root, the alias and that endpoint; when the alias is made of characters
other than `?`, `#`, `%` and control characters, it sends one request, with the
method DELETE, the path `/<alias>/zones/pull.json/<zone>/cache`, an empty query
and no body, and what it returns is what `do` makes of the answer of the
transport to that request. -/
theorem PurgeZone_is_Delete (env : Collaborators) (Alias : GoString) (zone : Int) :
    PurgeZone env Alias zone =
        Delete env Alias ("/zones/pull.json/".toList ++ decimal zone ++ "/cache".toList)
      ∧ url Alias ("/zones/pull.json/".toList ++ decimal zone ++ "/cache".toList) =
          ApiPath ++ "/".toList ++ Alias ++ "/zones/pull.json/".toList ++ decimal zone
            ++ "/cache".toList
      ∧ ((∀ c ∈ Alias, plainChar c = true) →
          ∃ req, (PurgeZone env Alias zone).sent = some req
            ∧ req.Method = "DELETE".toList
            ∧ req.URL.Path =
                "/".toList ++ Alias ++ "/zones/pull.json/".toList ++ decimal zone
                  ++ "/cache".toList
            ∧ req.URL.RawQuery = []
            ∧ req.Body = none
            ∧ (PurgeZone env Alias zone).outcome = afterTransport env (env.Do req)) := by
  have hurl : url Alias ("/zones/pull.json/".toList ++ decimal zone ++ "/cache".toList)
      = ApiPath ++ '/' :: (Alias ++ '/' ::
          ("zones/pull.json/".toList ++ decimal zone ++ "/cache".toList)) :=
    url_cons_slash Alias _
  refine ⟨rfl, ?_, fun hA => ?_⟩
  · rw [hurl]
    simp
  have hrest : ∀ c ∈ "zones/pull.json/".toList ++ decimal zone ++ "/cache".toList,
      plainChar c = true := by
    intro c hc
    have h1 : ∀ x ∈ "zones/pull.json/".toList, plainChar x = true := by decide
    have h2 : ∀ x ∈ "/cache".toList, plainChar x = true := by decide
    rcases List.mem_append.1 hc with m | m
    · rcases List.mem_append.1 m with m | m
      · exact h1 c m
      · exact decimal_plain zone c m
    · exact h2 c m
  obtain ⟨req0, hmeth, hpath, hquery, hbody, hdo⟩ :=
    do_plain env Alias "DELETE".toList _ none _ (by decide) hurl
      (plain_segments Alias _ hA hrest)
  unfold PurgeZone Delete
  rw [hdo]
  refine ⟨_, rfl, ?_, ?_, ?_, ?_, rfl⟩
  · simp [hmeth]
  · simp only [prepared_URL, placeForm_Path, hpath]
    simp
  · exact hquery
  · exact hbody

/-- C8 at the alias `alias` and the zone 123456. -/
theorem PurgeZone_is_Delete_witness :
    ∃ req, (PurgeZone okEnv "alias".toList 123456).sent = some req
      ∧ req.Method = "DELETE".toList
      ∧ req.URL.Path = "/alias/zones/pull.json/123456/cache".toList
      ∧ req.URL.RawQuery = []
      ∧ req.Body = none
      ∧ (PurgeZone okEnv "alias".toList 123456).outcome
          = afterTransport okEnv (okEnv.Do req) :=
  (PurgeZone_is_Delete okEnv "alias".toList 123456).2.2 (by decide)

/-! ## C9 and C10: the fan-out of `PurgeZones` -/

theorem Blocked_init (zones : List Int) : Blocked zones (FanOut.init zones) := by
  refine ⟨rfl, rfl, ?_, ?_, rfl, rfl, rfl, rfl, ?_⟩
  · intro x hx; simp [FanOut.init] at hx
  · intro y hy; simp [FanOut.init] at hy
  · intro h; simp [FanOut.init] at h

theorem Blocked_step (env : Collaborators) (Alias : GoString) (zones : List Int)
    (s t : FanOut) (m : Move) (hs : Blocked zones s) (ht : step env Alias s m = some t) :
    Blocked zones t := by
  obtain ⟨hrc, hec, hsend, hcoll, hresp, hlast, hwait, hlen, hret⟩ := hs
  unfold step at ht
  by_cases hstop : s.crashed = true ∨ s.returned = true
  · rw [if_pos hstop] at ht
    simp at ht
  rw [if_neg hstop] at ht
  have hnr : s.returned = false := by
    cases hr : s.returned with
    | false => rfl
    | true => exact absurd (Or.inr hr) hstop
  cases m with
  | main =>
    simp only at ht
    split at ht
    · rename_i z rest hp
      simp only [Option.some.injEq] at ht
      subst ht
      refine ⟨hrc, hec, ?_, ?_, hresp, hlast, ?_, ?_, ?_⟩
      · intro x hx
        rcases List.mem_append.1 hx with m | m
        · exact hsend x m
        · simp only [List.mem_singleton] at m
          exact Or.inl ⟨z, m⟩
      · intro y hy
        rcases List.mem_append.1 hy with m | m
        · exact hcoll y m
        · simpa using m
      · simp only [List.length_append, List.length_singleton]
        omega
      · simp only [List.length_append, List.length_singleton]
        rw [hp] at hlen
        simp only [List.length_cons] at hlen
        omega
      · intro h
        simp only at h
        rw [hnr] at h
        exact absurd h (by decide)
    · rename_i hp
      split_ifs at ht with hw
      simp only [Option.some.injEq] at ht
      subst ht
      refine ⟨hrc, hec, hsend, hcoll, hresp, hlast, hwait, hlen, ?_⟩
      intro _
      rw [hp] at hlen
      simp only [List.length_nil] at hlen
      have : zones.length = 0 := by omega
      exact List.length_eq_zero.1 this
  | call i =>
    simp only at ht
    split at ht
    · rename_i z hi
      split at ht
      · simp only [Option.some.injEq] at ht
        subst ht
        exact ⟨hrc, hec, hsend, hcoll, hresp, hlast, hwait, hlen, fun h => hret h⟩
      · rename_i r e _
        simp only [Option.some.injEq] at ht
        subst ht
        refine ⟨hrc, hec, ?_, hcoll, hresp, hlast, ?_, ?_, fun h => hret h⟩
        · intro x hx
          rcases List.mem_or_eq_of_mem_set hx with m | m
          · exact hsend x m
          · exact Or.inr ⟨r, e, m⟩
        · simp only [List.length_set]
          exact hwait
        · simp only [List.length_set]
          exact hlen
    · simp at ht
  | passRc i j =>
    simp only [hrc] at ht
    simp at ht
  | passEc i j =>
    simp only [hec] at ht
    simp at ht
  | critical j =>
    simp only at ht
    split at ht
    · rename_i r e hj
      have := hcoll _ (List.getElem?_mem hj)
      simp at this
    · rename_i e hj
      have := hcoll _ (List.getElem?_mem hj)
      simp at this
    · simp at ht

theorem Blocked_exec (env : Collaborators) (Alias : GoString) (zones : List Int)
    (ms : List Move) : ∀ s, Blocked zones s → Blocked zones (exec env Alias s ms) := by
  induction ms with
  | nil => intro s hs; exact hs
  | cons m ms ih =>
    intro s hs
    simp only [exec]
    apply ih
    cases ht : step env Alias s m with
    | none => exact hs
    | some t => exact Blocked_step env Alias zones s t m hs ht

/-- Under no schedule does `PurgeZones` return for a non-empty list of zones,
and no result is ever collected. -/
theorem exec_blocked (env : Collaborators) (Alias : GoString) (zones : List Int)
    (ms : List Move) (hz : zones ≠ []) :
    (exec env Alias (FanOut.init zones) ms).returned = false
      ∧ (exec env Alias (FanOut.init zones) ms).responses = [] := by
  have hb := Blocked_exec env Alias zones ms _ (Blocked_init zones)
  refine ⟨?_, hb.2.2.2.2.1⟩
  cases hr : (exec env Alias (FanOut.init zones) ms).returned with
  | false => rfl
  | true => exact absurd (hb.2.2.2.2.2.2.2.2 hr) hz

/-- C9 fails on the code: for a non-empty list of zones, under every schedule,
`PurgeZones` never returns and never fills a result slot: the channels `rc` and
`ec` are nil, so every sender blocks at line 87 and every collector at line 93,
the counter never falls and `waiter.Wait()` never lets the caller through. -/
theorem PurgeZones_never_returns (env : Collaborators) (Alias : GoString)
    (zones : List Int) (ms : List Move) (hz : zones ≠ []) :
    (exec env Alias (FanOut.init zones) ms).returned = false
      ∧ (exec env Alias (FanOut.init zones) ms).responses = [] :=
  exec_blocked env Alias zones ms hz

/-- The failing input of C9: for the zones 12345, 23456 and 34567 the three
DELETE requests are made, and then nothing can move: the call has not
returned and holds no result. -/
theorem PurgeZones_never_returns_witness :
    ((exec okEnv "alias".toList (FanOut.init [12345, 23456, 34567])
        [.main, .main, .main, .call 0, .call 1, .call 2]).requests.map
          (fun r => (r.Method, r.URL.Path))
        = [("DELETE".toList, "/alias/zones/pull.json/12345/cache".toList),
           ("DELETE".toList, "/alias/zones/pull.json/23456/cache".toList),
           ("DELETE".toList, "/alias/zones/pull.json/34567/cache".toList)])
      ∧ (exec okEnv "alias".toList (FanOut.init [12345, 23456, 34567])
          [.main, .main, .main, .call 0, .call 1, .call 2]).returned = false
      ∧ (exec okEnv "alias".toList (FanOut.init [12345, 23456, 34567])
          [.main, .main, .main, .call 0, .call 1, .call 2]).responses = [] :=
  ⟨by decide,
   PurgeZones_never_returns okEnv "alias".toList [12345, 23456, 34567]
     [.main, .main, .main, .call 0, .call 1, .call 2] (by decide)⟩

/-- C10 fails on the code. For the zones 1 and 2, the first of which the server
refuses: under every schedule `PurgeZones` never returns, so it reports no
error at all (the nil channels of C9). And the critical section of `collect`
assigns `last = e` whatever `e` is: from the state the call would start in had
both channels been made, the schedule that collects the failure of zone 1
first and the success of zone 2 second returns both envelopes and a nil
error. -/
theorem PurgeZones_loses_failure :
    (∀ ms, (exec mixedEnv "alias".toList (FanOut.init [1, 2]) ms).returned = false)
      ∧ (PurgeZone mixedEnv "alias".toList 1).outcome
          = .returned (some failedEnvelope) (some "invalid, no such zone".toList)
      ∧ (exec mixedEnv "alias".toList
            { FanOut.init [1, 2] with rc := some (), ec := some () }
            [.main, .main, .call 0, .call 1, .passRc 0 0, .passEc 0 0, .critical 0,
             .passRc 1 1, .passEc 1 1, .critical 1, .main]).returned = true
      ∧ (exec mixedEnv "alias".toList
            { FanOut.init [1, 2] with rc := some (), ec := some () }
            [.main, .main, .call 0, .call 1, .passRc 0 0, .passEc 0 0, .critical 0,
             .passRc 1 1, .passEc 1 1, .critical 1, .main]).responses
          = [failedEnvelope, okEnvelope]
      ∧ (exec mixedEnv "alias".toList
            { FanOut.init [1, 2] with rc := some (), ec := some () }
            [.main, .main, .call 0, .call 1, .passRc 0 0, .passEc 0 0, .critical 0,
             .passRc 1 1, .passEc 1 1, .critical 1, .main]).last = none :=
  ⟨fun ms => (exec_blocked mixedEnv "alias".toList [1, 2] ms (by decide)).1,
   by decide, by decide, by decide, by decide⟩

/-- For an empty list of zones `PurgeZones` returns at once, with no response
and a nil error. -/
theorem PurgeZones_empty (env : Collaborators) (Alias : GoString) :
    (exec env Alias (FanOut.init []) [.main]).returned = true
      ∧ (exec env Alias (FanOut.init []) [.main]).responses = []
      ∧ (exec env Alias (FanOut.init []) [.main]).last = none :=
  ⟨rfl, rfl, rfl⟩

/-! ## Further properties of `do` and of the fan-out -/

/-- Every request `do` sends carries the three headers of lines 148-150: the
output of the signer for the method, the final URL and the signed form, the
content type and the user agent. -/
theorem sent_headers (env : Collaborators) (Alias method endpoint : GoString)
    (form : Option Values) (req : Request)
    (h : (do_ env Alias method endpoint form).sent = some req) :
    req.getHeader "Authorization".toList
        = some (env.AuthorizationHeader method req.URL (signedForm method form))
      ∧ req.getHeader "Content-Type".toList = some ContentType
      ∧ req.getHeader "User-Agent".toList = some UserAgent := by
  obtain ⟨req0, hreq, -, hr, -, -⟩ := do_sent env Alias method endpoint form req h
  obtain ⟨-, -, hhead⟩ := NewRequest_inv _ _ _ hreq
  have hpf : (placeForm env method req0 form).Header = [] := by
    cases form with
    | none => exact hhead
    | some f => simp only [placeForm]; split_ifs <;> exact hhead
  subst hr
  refine ⟨?_, ?_, ?_⟩ <;>
    simp only [prepared, Request.getHeader, Request.setHeader, hpf, setHeader_URL] <;>
    rfl

/-- The sent headers at `Get("/account.json", nil)`. -/
theorem sent_headers_witness :
    ∃ req, (Get okEnv "alias".toList "/account.json".toList none).sent = some req
      ∧ req.getHeader "Content-Type".toList = some ContentType :=
  ⟨_, rfl,
    (sent_headers okEnv "alias".toList "GET".toList "/account.json".toList none _ rfl).2.1⟩

/-- When the transport reports an error together with a response, `do` returns
a nil response and that error, unchanged. -/
theorem transport_error_with_response (env : Collaborators)
    (Alias method endpoint : GoString) (form : Option Values) (req : Request)
    (resp : HttpResponse) (err : GoString)
    (hsent : (do_ env Alias method endpoint form).sent = some req)
    (hdo : env.Do req = (some resp, some err)) :
    (do_ env Alias method endpoint form).outcome = .returned none (some err) := by
  obtain ⟨req0, -, -, -, -, hout⟩ := do_sent env Alias method endpoint form req hsent
  rw [hout, hdo]
  rfl

/-- A transport that reports an error together with a response. -/
theorem transport_error_with_response_witness :
    (Get { okEnv with Do := fun _ => (some { StatusCode := 302, Body := [] },
              some "stopped after 10 redirects".toList) }
        "alias".toList "/account.json".toList none).outcome
      = .returned none (some "stopped after 10 redirects".toList) :=
  transport_error_with_response _ "alias".toList "GET".toList "/account.json".toList none
    _ { StatusCode := 302, Body := [] } "stopped after 10 redirects".toList rfl rfl

/-- Once the loop is over and every sender has made its request, nothing can
move: every goroutine of a call of `PurgeZones` for a non-empty list of zones
is blocked. -/
theorem PurgeZones_deadlock (env : Collaborators) (Alias : GoString) (zones : List Int)
    (s : FanOut) (hz : zones ≠ []) (hs : Blocked zones s) (hp : s.pending = [])
    (hsent : ∀ x ∈ s.senders, x.atSendRc = true) : stuck env Alias s := by
  obtain ⟨hrc, hec, -, hcoll, -, -, hwait, hlen, -⟩ := hs
  intro m
  unfold step
  by_cases hstop : s.crashed = true ∨ s.returned = true
  · rw [if_pos hstop]
  rw [if_neg hstop]
  cases m with
  | main =>
    have hw : s.waiter ≠ 0 := by
      rw [hp] at hlen
      simp only [List.length_nil] at hlen
      have : zones.length ≠ 0 := fun h => hz (List.length_eq_zero.1 h)
      omega
    simp only [hp, if_neg hw]
  | call i =>
    simp only
    split
    · rename_i z hi
      have he := hsent _ (List.getElem?_mem hi)
      simp [SendAt.atSendRc] at he
    · rfl
  | passRc i j => simp only [hrc]
  | passEc i j => simp only [hec]
  | critical j =>
    simp only
    split
    · rename_i r e hj
      have := hcoll _ (List.getElem?_mem hj)
      simp at this
    · rename_i e hj
      have := hcoll _ (List.getElem?_mem hj)
      simp at this
    · rfl

/-- The deadlock at the zones 12345, 23456 and 34567. -/
theorem PurgeZones_deadlock_witness :
    stuck okEnv "alias".toList
      (exec okEnv "alias".toList (FanOut.init [12345, 23456, 34567])
        [.main, .main, .main, .call 0, .call 1, .call 2]) :=
  PurgeZones_deadlock okEnv "alias".toList [12345, 23456, 34567] _ (by decide)
    (Blocked_exec okEnv "alias".toList _ _ _ (Blocked_init _)) (by decide) (by decide)

theorem cut_append (sep : Char) (a b : GoString) (h : sep ∉ a) :
    cut sep (a ++ b) = (a ++ (cut sep b).1, (cut sep b).2.1, (cut sep b).2.2) := by
  induction a with
  | nil => rfl
  | cons c t ih =>
    have hc : ¬ c = sep := fun e => h (by simp [e])
    have ht : sep ∉ t := fun m => h (List.mem_cons_of_mem _ m)
    simp [cut, hc, ih ht]

theorem parseNoFragment_query (x : GoString) (u : URL) (h : parseNoFragment x = .ok u) :
    ∃ sch rest, getScheme x = .ok (sch, rest) ∧ u.RawQuery = (cut '?' rest).2.1 := by
  unfold parseNoFragment at h
  by_cases hctl : x.any isCTL = true
  · rw [if_pos hctl] at h
    simp at h
  rw [if_neg hctl] at h
  cases hg : getScheme x with
  | error e => rw [hg] at h; simp at h
  | ok sr =>
    obtain ⟨scheme, rest⟩ := sr
    rw [hg] at h
    refine ⟨scheme, rest, rfl, ?_⟩
    simp only at h
    split_ifs at h
    split at h
    · simp at h
    · split at h
      · simp at h
      · simp only [Except.ok.injEq] at h
        rw [← h]

theorem Parse_query (raw : GoString) (u : URL) (h : Parse raw = .ok u) :
    ∃ sch rest, getScheme (cut '#' raw).1 = .ok (sch, rest)
      ∧ u.RawQuery = (cut '?' rest).2.1 := by
  unfold Parse at h
  cases h0 : parseNoFragment (cut '#' raw).1 with
  | error e => rw [h0] at h; simp at h
  | ok u0 =>
    rw [h0] at h
    obtain ⟨sch, rest, hg, hr⟩ := parseNoFragment_query _ _ h0
    refine ⟨sch, rest, hg, ?_⟩
    simp only at h
    split_ifs at h
    · simp only [Except.ok.injEq] at h
      rw [← h, hr]
    · split at h
      · simp at h
      · simp only [Except.ok.injEq] at h
        rw [← h]
        exact hr

/-- The raw query of the URL `do` builds, for an alias that holds no `?` and no
`#`: the endpoint, less one leading separator, is cut at its first `#`, and the
query is what follows the first `?` of the part before. A `?` that comes last
in that part, or after the `#`, gives an empty query. -/
theorem RawQuery_of_endpoint (Alias endpoint : GoString) (u : URL)
    (hq : '?' ∉ Alias) (hf : '#' ∉ Alias) (h : Parse (url Alias endpoint) = .ok u) :
    u.RawQuery = (cut '?' (cut '#' (trimPrefix endpoint ['/'])).1).2.1 := by
  obtain ⟨sch, rest, hg, hr⟩ := Parse_query _ _ h
  have hpre : '#' ∉ ApiPath ++ ['/'] ++ Alias ++ ['/'] := by
    intro m
    simp only [List.mem_append] at m
    rcases m with (((m | m) | m) | m)
    · revert m; decide
    · revert m; decide
    · exact hf m
    · revert m; decide
  have hcut : (cut '#' (url Alias endpoint)).1
      = ApiPath ++ ('/' :: (Alias ++ '/' :: (cut '#' (trimPrefix endpoint ['/'])).1)) := by
    simp only [url]
    rw [cut_append _ _ _ hpre]
    simp
  rw [hcut, getScheme_ApiPath] at hg
  simp only [Except.ok.injEq, Prod.mk.injEq] at hg
  have hpre2 : '?' ∉ "//rws.netdna.com".toList ++ ['/'] ++ Alias ++ ['/'] := by
    intro m
    simp only [List.mem_append] at m
    rcases m with (((m | m) | m) | m)
    · revert m; decide
    · revert m; decide
    · exact hq m
    · revert m; decide
  have hrest : rest = ("//rws.netdna.com".toList ++ ['/'] ++ Alias ++ ['/'])
      ++ (cut '#' (trimPrefix endpoint ['/'])).1 := by
    rw [← hg.2]
    simp
  rw [hr, hrest, cut_append _ _ _ hpre2]

/-- The raw query at the endpoint `a?x=1#f`; at `a?` and at `a#b?c` it is
empty. -/
theorem RawQuery_of_endpoint_witness :
    (∃ u, Parse (url "alias".toList "a?x=1#f".toList) = .ok u
        ∧ u.RawQuery = "x=1".toList)
      ∧ (cut '?' (cut '#' (trimPrefix "a?".toList ['/'])).1).2.1 = []
      ∧ (cut '?' (cut '#' (trimPrefix "a#b?c".toList ['/'])).1).2.1 = [] :=
  ⟨⟨_, rfl,
     (RawQuery_of_endpoint "alias".toList "a?x=1#f".toList _ (by decide) (by decide)
        rfl).trans (by decide)⟩,
   by decide, by decide⟩

end MaxCDN
